import Mathlib

/-!
Formal model of the telegram-api webhook service's core: the
authentication layer (`app/services/auth.py`) and the append-only
transcript log (`app/storage/transcripts.py`), together with proofs of
the specified properties.

Bytes are modelled as `Nat` values below 256, byte strings as `List Nat`,
and text as `List Char` (one entry per unicode code point, matching
Python's `str`).  Machine words use `Nat` with explicit `% 2 ^ 32`.
-/

namespace TelegramApi

/-! ### SHA-256 (model of Python's `hashlib.sha256`) -/

/-- `2 ^ 32`, the modulus for SHA-256 word arithmetic. -/
def M32 : Nat := 4294967296

/-- Right rotation of a 32-bit word (input below `M32`). -/
def rotr (n x : Nat) : Nat := ((x >>> n) ||| (x <<< (32 - n))) % M32

/-- The SHA-256 round constants. -/
def shaK : List Nat :=
  [1116352408, 1899447441, 3049323471, 3921009573, 961987163, 1508970993, 2453635748, 2870763221,
   3624381080, 310598401, 607225278, 1426881987, 1925078388, 2162078206, 2614888103, 3248222580,
   3835390401, 4022224774, 264347078, 604807628, 770255983, 1249150122, 1555081692, 1996064986,
   2554220882, 2821834349, 2952996808, 3210313671, 3336571891, 3584528711, 113926993, 338241895,
   666307205, 773529912, 1294757372, 1396182291, 1695183700, 1986661051, 2177026350, 2456956037,
   2730485921, 2820302411, 3259730800, 3345764771, 3516065817, 3600352804, 4094571909, 275423344,
   430227734, 506948616, 659060556, 883997877, 958139571, 1322822218, 1537002063, 1747873779,
   1955562222, 2024104815, 2227730452, 2361852424, 2428436474, 2756734187, 3204031479, 3329325298]

/-- The SHA-256 initial hash value. -/
def shaH0 : List Nat :=
  [1779033703, 3144134277, 1013904242, 2773480762, 1359893119, 2600822924, 528734635, 1541459225]

/-- Upper-case sigma functions of the compression rounds. -/
def bigS0 (x : Nat) : Nat := rotr 2 x ^^^ rotr 13 x ^^^ rotr 22 x

def bigS1 (x : Nat) : Nat := rotr 6 x ^^^ rotr 11 x ^^^ rotr 25 x

/-- Lower-case sigma functions of the message schedule. -/
def smallS0 (x : Nat) : Nat := rotr 7 x ^^^ rotr 18 x ^^^ (x >>> 3)

def smallS1 (x : Nat) : Nat := rotr 17 x ^^^ rotr 19 x ^^^ (x >>> 10)

/-- Big-endian packing of bytes into 32-bit words. -/
def wordsOfBytes : List Nat → List Nat
  | a :: b :: c :: d :: rest => (((a * 256 + b) * 256 + c) * 256 + d) :: wordsOfBytes rest
  | _ => []

/-- Extend a 16-word block to the 64-word message schedule. -/
def extendSchedule (w : List Nat) : List Nat :=
  (List.range 48).foldl
    (fun ws i =>
      ws ++ [(smallS1 (ws.getD (i + 14) 0) + ws.getD (i + 9) 0 +
              smallS0 (ws.getD (i + 1) 0) + ws.getD i 0) % M32])
    w

/-- One compression round on the state `[a, b, c, d, e, f, g, h]`. -/
def roundStep (st : List Nat) (kw : Nat × Nat) : List Nat :=
  match st with
  | [a, b, c, d, e, f, g, h] =>
    let t1 := (h + bigS1 e + ((e &&& f) ^^^ ((e ^^^ (M32 - 1)) &&& g)) + kw.1 + kw.2) % M32
    let t2 := (bigS0 a + ((a &&& b) ^^^ (a &&& c) ^^^ (b &&& c))) % M32
    [(t1 + t2) % M32, a, b, c, (d + t1) % M32, e, f, g]
  | other => other

/-- Compress one 64-byte block into the running hash state. -/
def compressBlock (h : List Nat) (block : List Nat) : List Nat :=
  let w := extendSchedule (wordsOfBytes block)
  let out := (shaK.zip w).foldl roundStep h
  (h.zip out).map (fun p => (p.1 + p.2) % M32)

/-- Big-endian bytes of a 64-bit length. -/
def be64 (n : Nat) : List Nat :=
  [(n >>> 56) % 256, (n >>> 48) % 256, (n >>> 40) % 256, (n >>> 32) % 256,
   (n >>> 24) % 256, (n >>> 16) % 256, (n >>> 8) % 256, n % 256]

/-- Big-endian bytes of a 32-bit word. -/
def be32 (w : Nat) : List Nat :=
  [(w >>> 24) % 256, (w >>> 16) % 256, (w >>> 8) % 256, w % 256]

/-- SHA-256 padding: `0x80`, zeros to 56 mod 64, then the 64-bit bit length. -/
def sha256Pad (msg : List Nat) : List Nat :=
  let r := (msg.length + 1) % 64
  let zeros := if r ≤ 56 then 56 - r else 120 - r
  msg ++ 128 :: (List.replicate zeros 0 ++ be64 (msg.length * 8))

/-- Split a byte string into 64-byte blocks (fuel-driven, fuel ≥ length). -/
def chunk64 : Nat → List Nat → List (List Nat)
  | 0, _ => []
  | _ + 1, [] => []
  | fuel + 1, bs => bs.take 64 :: chunk64 fuel (bs.drop 64)

/-- The SHA-256 digest (32 bytes) of a byte string. -/
def sha256 (msg : List Nat) : List Nat :=
  let p := sha256Pad msg
  ((chunk64 p.length p).foldl compressBlock shaH0).flatMap be32

/-! ### HMAC-SHA256 and hex encoding (models of `hmac` and `.hexdigest()`) -/

/-- HMAC-SHA256 (block size 64): model of `hmac.new(key, msg, sha256).digest()`. -/
def hmac_sha256 (key msg : List Nat) : List Nat :=
  let k0 := if 64 < key.length then sha256 key else key
  let kp := k0 ++ List.replicate (64 - k0.length) 0
  sha256 ((kp.map (fun b => b ^^^ 92)) ++ sha256 ((kp.map (fun b => b ^^^ 54)) ++ msg))

/-- Lower-case hex digit for a value below 16. -/
def hexChar (n : Nat) : Char := if n < 10 then Char.ofNat (48 + n) else Char.ofNat (87 + n)

/-- Lower-case hex encoding of a byte string, two digits per byte. -/
def hexdigest (bs : List Nat) : List Char :=
  bs.flatMap (fun b => [hexChar ((b >>> 4) % 16), hexChar (b % 16)])

/-! ### The authentication service (`app/services/auth.py`) -/

/-- Model of `hmac.compare_digest` on text: a length check and a
conjunction over all character pairs (the constant-time accumulator);
functionally it decides equality. -/
def compare_digest (a b : List Char) : Bool :=
  (a.length == b.length) && (a.zip b).all (fun p => p.1 == p.2)

/-- `AuthService.verify_telegram_webhook`: hex HMAC-SHA256 of the raw body
under the shared secret, compared with the provided token.  `shared_secret`
and `update_data` are the UTF-8 bytes of the corresponding Python strings. -/
def verify_telegram_webhook (shared_secret : List Nat) (token : List Char)
    (update_data : List Nat) : Bool :=
  compare_digest (hexdigest (hmac_sha256 shared_secret update_data)) token

/-- The reasons of the `AuthenticationError` exceptions raised by
`authenticate_request` (the Python messages are "Missing webhook secret
token", "Invalid webhook signature" and "User {user_id} is not authorized
to use this bot"). -/
inductive AuthError where
  | missingToken
  | invalidSignature
  | notAuthorized (user_id : Int)
deriving DecidableEq, Repr

/-- `AuthService.is_user_authorized`: membership in the allow-list. -/
def is_user_authorized (allowed_user_ids : List Int) (user_id : Int) : Bool :=
  allowed_user_ids.contains user_id

/-- `AuthService.authenticate_request`, parameterized by the signature
check in use (`verify` is `verify_telegram_webhook` applied to the shared
secret and the raw body; keeping it a parameter makes "no HMAC is computed
for an empty token" expressible as independence from `verify`).  A `token`
of `none` models Python `None` and `some []` an empty string; the Python
guard `if not token` rejects both. -/
def authenticate_with (verify : List Char → Bool) (allowed_user_ids : List Int)
    (token : Option (List Char)) (user_id : Int) : Except AuthError Bool :=
  match token with
  | none => .error .missingToken
  | some t =>
    if t.isEmpty then .error .missingToken
    else if !verify t then .error .invalidSignature
    else if !is_user_authorized allowed_user_ids user_id then .error (.notAuthorized user_id)
    else .ok true

/-- `AuthService.authenticate_request` with the real signature check. -/
def authenticate_request (shared_secret : List Nat) (allowed_user_ids : List Int)
    (token : Option (List Char)) (update_data : List Nat) (user_id : Int) :
    Except AuthError Bool :=
  authenticate_with (fun t => verify_telegram_webhook shared_secret t update_data)
    allowed_user_ids token user_id

/-! ### JSON values (model of Python's `json` module, restricted to the
integer-valued numbers this system reads and writes; floating-point
literals are rejected by the model parser) -/

inductive Json where
  | null
  | bool (b : Bool)
  | num (n : Int)
  | str (s : List Char)
  | arr (items : List Json)
  | obj (members : List (List Char × Json))

/-- Whether a JSON value is an object (a Python `dict` after `json.loads`). -/
def Json.isObj : Json → Bool
  | .obj _ => true
  | _ => false

/-- JSON whitespace accepted between tokens by `json.loads`. -/
def isJsonWs (c : Char) : Bool := c == ' ' || c == '\t' || c == '\n' || c == '\r'

/-- Skip JSON whitespace. -/
def skipJsonWs (cs : List Char) : List Char := cs.dropWhile isJsonWs

/-- ASCII decimal digit test. -/
def isDigitChar (c : Char) : Bool := 48 ≤ c.toNat && c.toNat ≤ 57

/-- Value of a big-endian decimal digit string. -/
def digitsVal (ds : List Char) : Nat := ds.foldl (fun a c => 10 * a + (c.toNat - 48)) 0

/-- Whether a remainder would extend a digit run into a float literal. -/
def numContinues : List Char → Bool
  | [] => false
  | c :: _ => c == '.' || c == 'e' || c == 'E'

/-- Parse a JSON natural-number literal: a digit run with no redundant
leading zero; a following `.`, `e` or `E` would start a float, which this
model rejects (the system only writes integers). -/
def pNat (cs : List Char) : Option (Nat × List Char) :=
  match cs.takeWhile isDigitChar, cs.dropWhile isDigitChar with
  | [], _ => none
  | d :: ds, r =>
    if d == '0' && !ds.isEmpty then none
    else if numContinues r then none
    else some (digitsVal (d :: ds), r)

/-- Parse a JSON integer literal (optional minus sign). -/
def pInt (cs : List Char) : Option (Int × List Char) :=
  match cs with
  | [] => none
  | c :: r =>
    if c = '-' then (pNat r).map (fun p => (-(p.1 : Int), p.2))
    else (pNat (c :: r)).map (fun p => ((p.1 : Int), p.2))

/-- Value of one hex digit, as in `\uXXXX` escapes. -/
def hexNibble (c : Char) : Option Nat :=
  if 48 ≤ c.toNat && c.toNat ≤ 57 then some (c.toNat - 48)
  else if 97 ≤ c.toNat && c.toNat ≤ 102 then some (c.toNat - 87)
  else if 65 ≤ c.toNat && c.toNat ≤ 70 then some (c.toNat - 55)
  else none

/-- Decoded form of a single-letter escape. -/
def escCode : Char → Option Char
  | '"' => some '"'
  | '\\' => some '\\'
  | '/' => some '/'
  | 'b' => some (Char.ofNat 8)
  | 'f' => some (Char.ofNat 12)
  | 'n' => some (Char.ofNat 10)
  | 'r' => some (Char.ofNat 13)
  | 't' => some (Char.ofNat 9)
  | _ => none

/-- Parse the body of a JSON string after the opening quote, undoing
escapes; raw control characters are rejected (`json.loads` strict mode).
Fuel-driven recursion; every step consumes at least one character, so any
fuel above the remaining length is equivalent to the unbounded scan. -/
def pStr : Nat → List Char → Option (List Char × List Char)
  | 0, _ => none
  | fuel + 1, cs =>
    match cs with
    | [] => none
    | c :: cs2 =>
      if c = '"' then some ([], cs2)
      else if c = '\\' then
        match cs2 with
        | [] => none
        | e :: r =>
          if e = 'u' then
            match r with
            | h1 :: h2 :: h3 :: h4 :: r2 =>
              (match hexNibble h1, hexNibble h2, hexNibble h3, hexNibble h4 with
               | some a, some b, some c2, some d =>
                 (pStr fuel r2).map
                   (fun p => (Char.ofNat (((a * 16 + b) * 16 + c2) * 16 + d) :: p.1, p.2))
               | _, _, _, _ => none)
            | _ => none
          else
            match escCode e with
            | some d => (pStr fuel r).map (fun p => (d :: p.1, p.2))
            | none => none
      else if c.toNat < 32 then none
      else (pStr fuel cs2).map (fun p => (c :: p.1, p.2))

mutual

/-- Parse one JSON value (fuel-driven recursion for the nested cases). -/
def pVal : Nat → List Char → Option (Json × List Char)
  | 0, _ => none
  | fuel + 1, cs =>
    match skipJsonWs cs with
    | [] => none
    | c :: r =>
      if c = 'n' then
        match r with
        | 'u' :: 'l' :: 'l' :: r2 => some (.null, r2)
        | _ => none
      else if c = 't' then
        match r with
        | 'r' :: 'u' :: 'e' :: r2 => some (.bool true, r2)
        | _ => none
      else if c = 'f' then
        match r with
        | 'a' :: 'l' :: 's' :: 'e' :: r2 => some (.bool false, r2)
        | _ => none
      else if c = '"' then (pStr (r.length + 1) r).map (fun p => (.str p.1, p.2))
      else if c = '[' then
        match skipJsonWs r with
        | ']' :: r2 => some (.arr [], r2)
        | cs2 => (pItems fuel cs2).map (fun p => (.arr p.1, p.2))
      else if c = '{' then
        match skipJsonWs r with
        | '}' :: r2 => some (.obj [], r2)
        | cs2 => (pMembers fuel cs2).map (fun p => (.obj p.1, p.2))
      else (pInt (c :: r)).map (fun p => (.num p.1, p.2))

/-- Parse one or more comma-separated array items up to `]`. -/
def pItems : Nat → List Char → Option (List Json × List Char)
  | 0, _ => none
  | fuel + 1, cs =>
    match pVal fuel cs with
    | none => none
    | some (v, r) =>
      match skipJsonWs r with
      | ',' :: r2 => (pItems fuel r2).map (fun p => (v :: p.1, p.2))
      | ']' :: r2 => some ([v], r2)
      | _ => none

/-- Parse one or more comma-separated `"key": value` members up to `}`. -/
def pMembers : Nat → List Char → Option (List (List Char × Json) × List Char)
  | 0, _ => none
  | fuel + 1, cs =>
    match skipJsonWs cs with
    | '"' :: r =>
      (match pStr (r.length + 1) r with
       | none => none
       | some (k, r1) =>
         match skipJsonWs r1 with
         | ':' :: r2 =>
           (match pVal fuel r2 with
            | none => none
            | some (v, r3) =>
              match skipJsonWs r3 with
              | ',' :: r4 => (pMembers fuel r4).map (fun p => ((k, v) :: p.1, p.2))
              | '}' :: r4 => some ([(k, v)], r4)
              | _ => none)
         | _ => none)
    | _ => none

end

/-- `json.loads`: parse one document and require only whitespace after it. -/
def loads (cs : List Char) : Option Json :=
  match pVal (2 * cs.length + 2) cs with
  | some (v, r) => if (skipJsonWs r).isEmpty then some v else none
  | none => none

/-! ### JSON serialization (model of `json.dumps(..., ensure_ascii=False)`
with the default separators, for the flat records this system writes) -/

/-- JSON escape of one character, per `json.dumps` with
`ensure_ascii=False`: only `"`, `\` and control characters are escaped. -/
def escapeChar (c : Char) : List Char :=
  if c = '"' then ['\\', '"']
  else if c = '\\' then ['\\', '\\']
  else if c.toNat = 8 then ['\\', 'b']
  else if c.toNat = 9 then ['\\', 't']
  else if c.toNat = 10 then ['\\', 'n']
  else if c.toNat = 12 then ['\\', 'f']
  else if c.toNat = 13 then ['\\', 'r']
  else if c.toNat < 32 then ['\\', 'u', '0', '0', hexChar (c.toNat / 16), hexChar (c.toNat % 16)]
  else [c]

/-- A JSON string literal: escaped body between double quotes. -/
def dumpStr (s : List Char) : List Char := '"' :: (s.flatMap escapeChar ++ ['"'])

/-- Little-endian decimal digits (fuel-driven; fuel > n suffices). -/
def natCharsRev : Nat → Nat → List Char
  | 0, _ => []
  | fuel + 1, n =>
    if n < 10 then [Char.ofNat (48 + n)]
    else Char.ofNat (48 + n % 10) :: natCharsRev fuel (n / 10)

/-- Decimal digit characters of a natural number, most significant first. -/
def natChars (n : Nat) : List Char := (natCharsRev (n + 1) n).reverse

/-- Decimal rendering of an integer, as `json.dumps` writes it. -/
def intChars (i : Int) : List Char :=
  if i < 0 then '-' :: natChars i.natAbs else natChars i.natAbs

/-- Serialization of the scalar values appearing in a transcript record;
array and object values do not occur in the records this system writes
(they are rendered as their empty forms here). -/
def dumpScalar : Json → List Char
  | .null => 'n' :: 'u' :: 'l' :: 'l' :: []
  | .bool true => 't' :: 'r' :: 'u' :: 'e' :: []
  | .bool false => 'f' :: 'a' :: 'l' :: 's' :: 'e' :: []
  | .num i => intChars i
  | .str s => dumpStr s
  | .arr _ => ['[', ']']
  | .obj _ => ['{', '}']

mutual

/-- Object members with the default separators `", "` and `": "`. -/
def dumpMembers : List (List Char × Json) → List Char
  | [] => []
  | (k, v) :: rest => dumpStr k ++ ':' :: ' ' :: (dumpScalar v ++ dumpMoreMembers rest)

/-- Second and later members, each preceded by `", "`. -/
def dumpMoreMembers : List (List Char × Json) → List Char
  | [] => []
  | (k, v) :: rest => ',' :: ' ' :: (dumpStr k ++ ':' :: ' ' :: (dumpScalar v ++ dumpMoreMembers rest))

end

/-- A flat JSON object as `json.dumps` renders it. -/
def dumpObj (ms : List (List Char × Json)) : List Char := '{' :: (dumpMembers ms ++ ['}'])

/-! ### The transcript storage (`app/storage/transcripts.py`)

File content is a `List Char`; existence of the file is an explicit
boolean, and the write-time clock (`datetime.utcnow().isoformat() + "Z"`)
is an explicit `ts` argument. -/

/-- The caller-supplied fields of `save_transcription`. -/
structure RecordInput where
  user_id : Int
  message_id : Int
  file_id : List Char
  transcription : List Char
  file_type : List Char
  filename : Option (List Char)

def kTimestamp : List Char := ("timestamp").toList
def kUserId : List Char := ("user_id").toList
def kMessageId : List Char := ("message_id").toList
def kFileId : List Char := ("file_id").toList
def kFileType : List Char := ("file_type").toList
def kFilename : List Char := ("filename").toList
def kTranscription : List Char := ("transcription").toList
def kCharacterCount : List Char := ("character_count").toList

/-- The members of the `transcript_record` dict built by
`save_transcription`, in insertion order: `timestamp` and
`character_count` are assigned internally, never caller-supplied. -/
def recordMembers (r : RecordInput) (ts : List Char) : List (List Char × Json) :=
  [(kTimestamp, .str ts),
   (kUserId, .num r.user_id),
   (kMessageId, .num r.message_id),
   (kFileId, .str r.file_id),
   (kFileType, .str r.file_type),
   (kFilename, match r.filename with | none => .null | some f => .str f),
   (kTranscription, .str r.transcription),
   (kCharacterCount, .num (r.transcription.length : Int))]

/-- The parsed form of a saved record. -/
def recordJson (r : RecordInput) (ts : List Char) : Json := .obj (recordMembers r ts)

/-- The JSON line `save_transcription` serializes (without the newline). -/
def dumpRecord (r : RecordInput) (ts : List Char) : List Char := dumpObj (recordMembers r ts)

/-- `TranscriptStorage.save_transcription`: opens the log in append mode
and writes one JSON line plus `'\n'` after the existing content. -/
def save_transcription (prev : List Char) (r : RecordInput) (ts : List Char) : List Char :=
  prev ++ (dumpRecord r ts ++ ['\n'])

/-- Python `str.strip` whitespace (the ASCII cases). -/
def isPySpace (c : Char) : Bool :=
  c == ' ' || c == '\t' || c == '\n' || c == '\r' || c == Char.ofNat 11 || c == Char.ofNat 12

/-- Python `str.strip`. -/
def pyStrip (cs : List Char) : List Char :=
  ((cs.dropWhile isPySpace).reverse.dropWhile isPySpace).reverse

/-- The lines of the file, as line iteration plus `strip` sees them. -/
def fileLines (content : List Char) : List (List Char) := content.splitOn '\n'

/-- The failure carried by a raised `StorageError`. -/
inductive StorageErr where
  | storageError
deriving DecidableEq, Repr

/-- Python `==` between a JSON scalar and an `int` (`True == 1`,
`False == 0`; nothing else equals an int). -/
def pyEqInt (v : Json) (n : Int) : Bool :=
  match v with
  | .num m => m == n
  | .bool b => (if b then (1 : Int) else 0) == n
  | _ => false

/-- Python `dict.get k` (default `None`) over parsed members; a later
duplicate key overwrites an earlier one, as in `dict` construction. -/
def objGetD (ms : List (List Char × Json)) (k : List Char) : Json :=
  ms.foldl (fun acc kv => if kv.1 == k then kv.2 else acc) .null

/-- The loop-break test `if limit and len(transcriptions) >= limit`:
`None` and `0` are falsy, so only a nonzero limit can stop the scan. -/
def limTriggered (lim : Option Int) (n : Nat) : Bool :=
  match lim with
  | none => false
  | some l => !(l == 0) && decide (l ≤ (n : Int))

/-- The line loop of `get_transcriptions`: strip; skip blank lines; skip
lines that fail JSON parsing; with a user filter, `record.get` on a
non-dict record raises (surfacing as a `StorageError`) and non-matching
records are skipped; each collected record is appended in file order, and
the loop breaks once a truthy limit has been reached. -/
def readLines (user_id : Option Int) (lim : Option Int) :
    List (List Char) → List Json → Except StorageErr (List Json)
  | [], acc => .ok acc
  | l :: ls, acc =>
    let s := pyStrip l
    if s.isEmpty then readLines user_id lim ls acc
    else
      match loads s with
      | none => readLines user_id lim ls acc
      | some record =>
        match user_id with
        | some uid =>
          (match record with
           | .obj ms =>
             if !pyEqInt (objGetD ms kUserId) uid then readLines user_id lim ls acc
             else if limTriggered lim (acc ++ [record]).length then .ok (acc ++ [record])
             else readLines user_id lim ls (acc ++ [record])
           | _ => .error .storageError)
        | none =>
          if limTriggered lim (acc ++ [record]).length then .ok (acc ++ [record])
          else readLines user_id lim ls (acc ++ [record])

/-- `TranscriptStorage.get_transcriptions`: empty result when the file
does not exist, otherwise the line loop over the file's lines. -/
def get_transcriptions (fileExists : Bool) (content : List Char)
    (user_id : Option Int) (lim : Option Int) : Except StorageErr (List Json) :=
  if fileExists then readLines user_id lim (fileLines content) [] else .ok []

/-- The `unique_users` field of the stats dict: a Python `set` while the
scan accumulates (and in the early no-file return), converted to its
cardinality before the successful return. -/
inductive UsersField where
  | uset (elems : List Json)
  | ucount (n : Nat)

/-- The stats dict of `get_storage_stats`. -/
structure PyStats where
  total_transcriptions : Nat
  unique_users : UsersField
  file_size_bytes : Nat
  file_exists : Bool

/-- UTF-8 byte size of the file content (`st_size` of the text file). -/
def utf8Size (cs : List Char) : Nat := (cs.map Char.utf8Size).sum

/-- Python `==` between the hashable JSON scalars kept in the users set. -/
def pyEqScalar : Json → Json → Bool
  | .null, .null => true
  | .bool a, .bool b => a == b
  | .bool a, .num m => (if a then (1 : Int) else 0) == m
  | .num m, .bool b => m == (if b then (1 : Int) else 0)
  | .num m, .num n => m == n
  | .str s, .str t => s == t
  | _, _ => false

/-- Python `set.add`: raises on unhashable values (lists and dicts),
otherwise inserts the value when no equal element is present. -/
def setAdd (seen : List Json) (v : Json) : Except StorageErr (List Json) :=
  match v with
  | .arr _ => .error .storageError
  | .obj _ => .error .storageError
  | _ => .ok (if seen.any (fun w => pyEqScalar w v) then seen else seen ++ [v])

/-- The scan loop of `get_storage_stats`: blank and unparseable lines are
skipped; a parsed dict bumps the count and adds its `user_id` to the set;
`record.get` on a parsed non-dict raises, surfacing as a `StorageError`. -/
def statsScan : List (List Char) → Nat → List Json → Except StorageErr (Nat × List Json)
  | [], total, seen => .ok (total, seen)
  | l :: ls, total, seen =>
    let s := pyStrip l
    if s.isEmpty then statsScan ls total seen
    else
      match loads s with
      | none => statsScan ls total seen
      | some record =>
        match record with
        | .obj ms =>
          (match setAdd seen (objGetD ms kUserId) with
           | .ok seen2 => statsScan ls (total + 1) seen2
           | .error e => .error e)
        | _ => .error .storageError

/-- `TranscriptStorage.get_storage_stats`: the no-file early return keeps
`unique_users` as the initial empty set; the successful scan path converts
the set to its cardinality. -/
def get_storage_stats (fileExists : Bool) (content : List Char) :
    Except StorageErr PyStats :=
  if fileExists then
    match statsScan (fileLines content) 0 [] with
    | .ok (total, seen) => .ok ⟨total, .ucount seen.length, utf8Size content, true⟩
    | .error e => .error e
  else .ok ⟨0, .uset [], 0, false⟩

/-- `TranscriptStorage.backup_transcriptions`: `false` and no write when
the source log does not exist; otherwise the chunked binary copy writes
the source's chunks (split at newlines, terminators kept) to the
destination, whose previous content is truncated. -/
def backup_transcriptions (srcExists : Bool) (src : List Char)
    (dstPrev : Option (List Char)) : Except StorageErr (Bool × Option (List Char)) :=
  if srcExists then .ok (true, some (List.intercalate ['\n'] (src.splitOn '\n')))
  else .ok (false, dstPrev)

/-- The limit semantics of the line loop, as a pure function: `None` and
`0` are falsy and impose no limit, a positive limit keeps that many
records, and a negative limit stops after the first collected record
(`len >= limit` holds as soon as one record is collected). -/
def applyLimit (lim : Option Int) (l : List Json) : List Json :=
  match lim with
  | none => l
  | some k => if k = 0 then l else if k ≤ 0 then l.take 1 else l.take k.toNat

/-- The collection loop over already-matched records: append each record
and stop as soon as a truthy limit is reached. -/
def collectLimited (lim : Option Int) : List Json → List Json → List Json
  | acc, [] => acc
  | acc, j :: js =>
    if limTriggered lim (acc ++ [j]).length then acc ++ [j]
    else collectLimited lim (acc ++ [j]) js

/-- The log content produced by a sequence of appends on a fresh log. -/
def logContent (rs : List (RecordInput × List Char)) : List Char :=
  rs.foldl (fun c p => save_transcription c p.1 p.2) []

/-- A small concrete record used by the concrete counterexamples. -/
def sampleRecord : RecordInput :=
  { user_id := 42, message_id := 1, file_id := ['f'],
    transcription := ['h', 'i'], file_type := ['v'], filename := none }

/-- A one-character timestamp for the concrete counterexamples. -/
def sampleTs : List Char := ['T']

/-- Whether a JSON value is a scalar (all values in the records this
system writes are scalars). -/
def isScalar : Json → Bool
  | .arr _ => false
  | .obj _ => false
  | _ => true

/-! ### Theorems -/

/-- `compare_digest` decides equality of character lists. -/
theorem compare_digest_iff (a b : List Char) : compare_digest a b = true ↔ a = b := by
  induction a generalizing b with
  | nil => cases b <;> simp [compare_digest]
  | cons x xs ih =>
    cases b with
    | nil => simp [compare_digest]
    | cons y ys =>
      have h := ih ys
      simp only [compare_digest, List.length_cons, List.zip_cons_cons, List.all_cons,
        Nat.add_right_cancel_iff, Bool.and_eq_true, beq_iff_eq, List.cons.injEq] at h ⊢
      constructor
      · rintro ⟨hl, hx, hall⟩
        exact ⟨hx, h.mp ⟨hl, hall⟩⟩
      · rintro ⟨hx, hxs⟩
        rcases h.mpr hxs with ⟨hl, hall⟩
        exact ⟨hl, hx, hall⟩

/-- C1: `verify_telegram_webhook` returns true exactly when the provided
token is the lower-case hex encoding of HMAC-SHA256 of the raw body under
the shared secret; in particular any other token, and any body whose MAC
differs, yields false, and the function is total (it never throws). -/
theorem verify_telegram_webhook_correct (shared_secret update_data : List Nat)
    (token : List Char) :
    verify_telegram_webhook shared_secret token update_data = true ↔
      token = hexdigest (hmac_sha256 shared_secret update_data) := by
  unfold verify_telegram_webhook
  rw [compare_digest_iff]
  exact eq_comm

/-- C2: `authenticate_request` checks in a fixed order and fails with the
reason of the first failing check: an absent or empty token is rejected as
missing-token without any HMAC computation (the result is then independent
of the signature-check function); otherwise a failing signature check is
rejected as invalid-signature; otherwise a user outside the allow-list is
rejected as not-authorized; and it returns `true` exactly when the token
is non-empty, the signature verifies, and the user is allow-listed. -/
theorem authenticate_request_spec (shared_secret : List Nat) (allowed_user_ids : List Int)
    (token : Option (List Char)) (update_data : List Nat) (user_id : Int) :
    (authenticate_request shared_secret allowed_user_ids token update_data user_id = .ok true ↔
      ∃ t, token = some t ∧ t ≠ [] ∧
        verify_telegram_webhook shared_secret t update_data = true ∧
        is_user_authorized allowed_user_ids user_id = true) ∧
    ((token = none ∨ token = some []) →
      authenticate_request shared_secret allowed_user_ids token update_data user_id =
        .error .missingToken ∧
      ∀ v : List Char → Bool,
        authenticate_with v allowed_user_ids token user_id = .error .missingToken) ∧
    (∀ t, token = some t → t ≠ [] →
      verify_telegram_webhook shared_secret t update_data = false →
      authenticate_request shared_secret allowed_user_ids token update_data user_id =
        .error .invalidSignature) ∧
    (∀ t, token = some t → t ≠ [] →
      verify_telegram_webhook shared_secret t update_data = true →
      is_user_authorized allowed_user_ids user_id = false →
      authenticate_request shared_secret allowed_user_ids token update_data user_id =
        .error (.notAuthorized user_id)) := by
  refine ⟨?_, ?_, ?_, ?_⟩
  · cases token with
    | none => simp [authenticate_request, authenticate_with]
    | some t =>
      by_cases ht : t = []
      · subst ht
        simp [authenticate_request, authenticate_with]
      · cases hv : verify_telegram_webhook shared_secret t update_data <;>
          cases ha : is_user_authorized allowed_user_ids user_id <;>
            simp [authenticate_request, authenticate_with, List.isEmpty_iff, ht, hv, ha]
  · rintro (rfl | rfl) <;>
      exact ⟨rfl, fun v => rfl⟩
  · rintro t rfl ht hv
    simp [authenticate_request, authenticate_with, List.isEmpty_iff, ht, hv]
  · rintro t rfl ht hv ha
    simp [authenticate_request, authenticate_with, List.isEmpty_iff, ht, hv, ha]

/-- Witness for C2: a concrete run of each failure discharge; the empty
token is rejected as missing-token. -/
theorem authenticate_request_spec_witness :
    authenticate_request [] [] none [] 0 = .error .missingToken :=
  ((authenticate_request_spec [] [] none [] 0).2.1 (Or.inl rfl)).1

/-- C7: `backup_transcriptions` on a missing source log returns `false`
and leaves the destination untouched, raising nothing; on an existing log
it returns `true` and the chunked copy writes a byte-for-byte identical
copy of the source to the destination. -/
theorem backup_transcriptions_spec (src : List Char) (dstPrev : Option (List Char)) :
    backup_transcriptions false src dstPrev = .ok (false, dstPrev) ∧
    backup_transcriptions true src dstPrev = .ok (true, some src) := by
  refine ⟨rfl, ?_⟩
  simp [backup_transcriptions, List.intercalate_splitOn]

/-- C5 (the divergence): on the absent-file path `get_storage_stats`
returns with `unique_users` still the initial empty set object — never
equal to the integer count `0` that the spec describes and that the
success path's set-to-count conversion (skipped by the early return)
would produce. -/
theorem get_storage_stats_missing_file (content : List Char) :
    get_storage_stats false content =
      .ok { total_transcriptions := 0, unique_users := .uset [],
            file_size_bytes := 0, file_exists := false } ∧
    ∀ n : Nat, UsersField.uset [] ≠ UsersField.ucount n :=
  ⟨rfl, fun _ h => UsersField.noConfusion h⟩

/-- `pyStrip` of the empty line. -/
theorem pyStrip_nil : pyStrip [] = [] := rfl

/-- `strip` leaves a line alone when it starts and ends with
non-whitespace (such as a serialized JSON object). -/
theorem pyStrip_sandwich (a : Char) (mid : List Char) (b : Char)
    (ha : isPySpace a = false) (hb : isPySpace b = false) :
    pyStrip (a :: (mid ++ [b])) = a :: (mid ++ [b]) := by
  have h1 : List.dropWhile isPySpace (a :: (mid ++ [b])) = a :: (mid ++ [b]) := by
    simp [List.dropWhile_cons, ha]
  have h2 : (a :: (mid ++ [b])).reverse = b :: (mid.reverse ++ [a]) := by
    simp
  have h3 : List.dropWhile isPySpace (b :: (mid.reverse ++ [a])) = b :: (mid.reverse ++ [a]) := by
    simp [List.dropWhile_cons, hb]
  unfold pyStrip
  rw [h1, h2, h3, ← h2, List.reverse_reverse]

/-- Splitting at newlines takes a newline-free line off the front. -/
theorem fileLines_cons_line (l rest : List Char) (h : ∀ c ∈ l, (c == '\n') = false) :
    fileLines (l ++ '\n' :: rest) = l :: fileLines rest := by
  unfold fileLines List.splitOn
  exact List.splitOnP_first (fun x => x == '\n') l (fun x hx => by simp [h x hx]) '\n' (by simp) rest

/-- A newline-free tail is a single line. -/
theorem fileLines_no_nl (l : List Char) (h : ∀ c ∈ l, (c == '\n') = false) :
    fileLines l = [l] := by
  unfold fileLines List.splitOn
  exact List.splitOnP_eq_single (fun x => x == '\n') l (fun x hx => by simp [h x hx])

/-- Empty content splits into one empty line. -/
theorem fileLines_nil : fileLines [] = [[]] := by
  simp [fileLines, List.splitOn]

/-- The digit character of `d < 10` carries value `d`. -/
theorem digitChar_spec (d : Nat) (h : d < 10) :
    (Char.ofNat (48 + d)).toNat = 48 + d ∧ isDigitChar (Char.ofNat (48 + d)) = true := by
  interval_cases d <;> exact ⟨by decide, by decide⟩

/-- The rendered digits of `n` are all decimal digits. -/
theorem natCharsRev_digits (fuel n : Nat) (h : n < fuel) :
    ∀ c ∈ natCharsRev fuel n, isDigitChar c = true := by
  induction fuel generalizing n with
  | zero => omega
  | succ f ih =>
    intro c hc
    by_cases hn : n < 10
    · rw [natCharsRev, if_pos hn] at hc
      rw [List.mem_singleton] at hc
      subst hc
      exact (digitChar_spec n hn).2
    · rw [natCharsRev, if_neg hn] at hc
      rcases List.mem_cons.mp hc with hc | hc
      · subst hc
        exact (digitChar_spec (n % 10) (Nat.mod_lt _ (by omega))).2
      · exact ih (n / 10) (by omega) c hc

/-- Folding the rendered digits back, least significant last, recovers `n`. -/
theorem natCharsRev_val (fuel n : Nat) (h : n < fuel) :
    (natCharsRev fuel n).foldr (fun c acc => 10 * acc + (c.toNat - 48)) 0 = n := by
  induction fuel generalizing n with
  | zero => omega
  | succ f ih =>
    by_cases hn : n < 10
    · rw [natCharsRev, if_pos hn]
      simp [(digitChar_spec n hn).1]
    · rw [natCharsRev, if_neg hn]
      rw [List.foldr_cons, ih (n / 10) (by omega), (digitChar_spec (n % 10) (Nat.mod_lt _ (by omega))).1]
      omega

/-- `digitsVal` inverts `natChars`. -/
theorem digitsVal_natChars (n : Nat) : digitsVal (natChars n) = n := by
  unfold digitsVal natChars
  rw [List.foldl_reverse]
  have := natCharsRev_val (n + 1) n (by omega)
  simpa using this

/-- All characters of a rendered natural number are digits. -/
theorem natChars_digits (n : Nat) : ∀ c ∈ natChars n, isDigitChar c = true := by
  intro c hc
  rw [natChars, List.mem_reverse] at hc
  exact natCharsRev_digits (n + 1) n (by omega) c hc

/-- The rendering of `n` is nonempty, all digits, and starts with `'0'`
only when it is exactly `"0"`. -/
theorem natChars_shape (n : Nat) :
    ∃ d ds, natChars n = d :: ds ∧ isDigitChar d = true ∧
      (d = '0' → n = 0 ∧ ds = []) := by
  by_cases hn : n < 10
  · refine ⟨Char.ofNat (48 + n), [], ?_, (digitChar_spec n hn).2, ?_⟩
    · rw [natChars, natCharsRev, if_pos hn, List.reverse_singleton]
    · intro h0
      have hv := (digitChar_spec n hn).1
      rw [h0] at hv
      have h48 : 48 + n = 48 := by rw [← hv]; decide
      exact ⟨by omega, rfl⟩
  · -- n ≥ 10: the most significant digit is nonzero
    have hlast : ∀ fuel m, m < fuel → 1 ≤ m →
        ∃ k, 1 ≤ k ∧ k < 10 ∧ (natCharsRev fuel m).getLast? = some (Char.ofNat (48 + k)) := by
      intro fuel
      induction fuel with
      | zero => omega
      | succ f ih =>
        intro m hm hm1
        by_cases hsmall : m < 10
        · exact ⟨m, hm1, hsmall, by rw [natCharsRev, if_pos hsmall]; rfl⟩
        · obtain ⟨k, hk1, hk10, hk⟩ := ih (m / 10) (by omega) (by omega)
          refine ⟨k, hk1, hk10, ?_⟩
          cases hcr : natCharsRev f (m / 10) with
          | nil => rw [hcr] at hk; simp at hk
          | cons a l =>
            rw [hcr] at hk
            rw [natCharsRev, if_neg hsmall, hcr, List.getLast?_cons_cons]
            exact hk
    obtain ⟨k, hk1, hk10, hk⟩ := hlast (n + 1) n (by omega) (by omega)
    have hne : natCharsRev (n + 1) n ≠ [] := by
      intro h
      rw [h] at hk
      simp at hk
    obtain ⟨d, ds, hds⟩ : ∃ d ds, natChars n = d :: ds := by
      cases h : natChars n with
      | nil =>
        exfalso
        apply hne
        have := congrArg List.reverse h
        rw [natChars] at h
        simpa using h
      | cons d ds => exact ⟨d, ds, rfl⟩
    refine ⟨d, ds, hds, ?_, ?_⟩
    · exact natChars_digits n d (by rw [hds]; exact List.mem_cons_self d ds)
    · intro h0
      subst h0
      -- head of natChars is the last of natCharsRev, which is nonzero
      have : (natChars n).head? = some '0' := by rw [hds]; rfl
      rw [natChars, List.head?_reverse, hk] at this
      have hv := (digitChar_spec k hk10).1
      have : Char.ofNat (48 + k) = '0' := by
        injection this
      have h48 : (48 : Nat) + k = 48 := by
        have := congrArg Char.toNat this
        simpa [hv] using this
      omega

/-- `takeWhile`/`dropWhile` split exactly at the boundary between a fully
satisfying run and a remainder whose head does not satisfy the test. -/
theorem spanAt {p : Char → Bool} (l r : List Char)
    (hl : ∀ c ∈ l, p c = true) (hr : ∀ c t, r = c :: t → p c = false) :
    (l ++ r).takeWhile p = l ∧ (l ++ r).dropWhile p = r := by
  induction l with
  | nil =>
    cases r with
    | nil => simp
    | cons c t =>
      simp [List.takeWhile_cons, List.dropWhile_cons, hr c t rfl]
  | cons x xs ih =>
    have hx := hl x (List.mem_cons_self x xs)
    obtain ⟨h1, h2⟩ := ih (fun c hc => hl c (List.mem_cons_of_mem x hc))
    simp [List.takeWhile_cons, List.dropWhile_cons, hx, h1, h2]

/-- The number parser inverts the decimal rendering of a natural number
when the remainder cannot extend the literal. -/
theorem pNat_natChars (n : Nat) (rest : List Char)
    (hrest : ∀ c t, rest = c :: t → isDigitChar c = false)
    (hnum : numContinues rest = false) :
    pNat (natChars n ++ rest) = some (n, rest) := by
  obtain ⟨d, ds, hds, hd, h0⟩ := natChars_shape n
  obtain ⟨htake, hdrop⟩ := spanAt (natChars n) rest (natChars_digits n) hrest
  have hno0 : (d == '0' && !ds.isEmpty) = false := by
    by_cases hd0 : d = '0'
    · obtain ⟨_, hds0⟩ := h0 hd0
      subst hds0
      simp
    · simp [hd0]
  unfold pNat
  rw [htake, hdrop, hds]
  simp only [hno0, hnum, if_false, Bool.false_eq_true]
  rw [← hds, digitsVal_natChars]

/-- The integer parser inverts the decimal rendering of an integer. -/
theorem pInt_intChars (i : Int) (rest : List Char)
    (hrest : ∀ c t, rest = c :: t → isDigitChar c = false)
    (hnum : numContinues rest = false) :
    pInt (intChars i ++ rest) = some (i, rest) := by
  by_cases hi : i < 0
  · have hch : intChars i = '-' :: natChars i.natAbs := by rw [intChars, if_pos hi]
    rw [hch, List.cons_append]
    simp only [pInt, if_true, eq_self_iff_true]
    rw [pNat_natChars i.natAbs rest hrest hnum]
    simp only [Option.map_some']
    have hval : -(i.natAbs : Int) = i := by omega
    rw [hval]
  · have hch : intChars i = natChars i.natAbs := by rw [intChars, if_neg hi]
    obtain ⟨d, ds, hds, hd, _⟩ := natChars_shape i.natAbs
    have hdm : d ≠ '-' := by
      intro h
      subst h
      exact absurd hd (by decide)
    rw [hch, hds, List.cons_append]
    simp only [pInt, if_neg hdm]
    rw [← List.cons_append, ← hds, pNat_natChars i.natAbs rest hrest hnum]
    simp only [Option.map_some']
    have hval : (i.natAbs : Int) = i := by omega
    rw [hval]

/-- `hexNibble` inverts `hexChar` on nibble values. -/
theorem hexNibble_hexChar (d : Nat) (h : d < 16) : hexNibble (hexChar d) = some d := by
  interval_cases d <;> decide

/-- Every escape is at least one character long. -/
theorem escapeChar_length_pos (c : Char) : 1 ≤ (escapeChar c).length := by
  rw [escapeChar]
  split_ifs <;> simp

/-- One escaped character parses back to itself in front of any remainder. -/
theorem pStr_escapeChar (c : Char) (cs : List Char) (fuel : Nat) :
    pStr (fuel + 1) (escapeChar c ++ cs) = (pStr fuel cs).map (fun p => (c :: p.1, p.2)) := by
  by_cases h1 : c = '"'
  · subst h1
    simp [escapeChar, pStr, escCode]
  by_cases h2 : c = '\\'
  · subst h2
    simp [escapeChar, pStr, escCode]
  by_cases h3 : c.toNat = 8
  · have hc : c = Char.ofNat 8 := by rw [← h3, Char.ofNat_toNat]
    subst hc
    simp [escapeChar, pStr, escCode]
  by_cases h4 : c.toNat = 9
  · have hc : c = Char.ofNat 9 := by rw [← h4, Char.ofNat_toNat]
    subst hc
    simp [escapeChar, pStr, escCode]
  by_cases h5 : c.toNat = 10
  · have hc : c = Char.ofNat 10 := by rw [← h5, Char.ofNat_toNat]
    subst hc
    simp [escapeChar, pStr, escCode]
  by_cases h6 : c.toNat = 12
  · have hc : c = Char.ofNat 12 := by rw [← h6, Char.ofNat_toNat]
    subst hc
    simp [escapeChar, pStr, escCode]
  by_cases h7 : c.toNat = 13
  · have hc : c = Char.ofNat 13 := by rw [← h7, Char.ofNat_toNat]
    subst hc
    simp [escapeChar, pStr, escCode]
  by_cases h8 : c.toNat < 32
  · have hesc : escapeChar c =
        ['\\', 'u', '0', '0', hexChar (c.toNat / 16), hexChar (c.toNat % 16)] := by
      rw [escapeChar, if_neg h1, if_neg h2, if_neg h3, if_neg h4, if_neg h5, if_neg h6,
        if_neg h7, if_pos h8]
    have hhi : hexNibble (hexChar (c.toNat / 16)) = some (c.toNat / 16) :=
      hexNibble_hexChar _ (by omega)
    have hlo : hexNibble (hexChar (c.toNat % 16)) = some (c.toNat % 16) :=
      hexNibble_hexChar _ (by omega)
    rw [hesc]
    have h00 : hexNibble '0' = some 0 := by decide
    simp only [List.cons_append, List.nil_append]
    simp [pStr, hhi, hlo, h00]
    have harith : c.toNat / 16 * 16 + c.toNat % 16 = c.toNat := by omega
    rw [harith, Char.ofNat_toNat]
  · have hesc : escapeChar c = [c] := by
      rw [escapeChar, if_neg h1, if_neg h2, if_neg h3, if_neg h4, if_neg h5, if_neg h6,
        if_neg h7, if_neg h8]
    rw [hesc, List.cons_append, List.nil_append]
    simp only [pStr, if_neg h1, if_neg h2, if_neg h8]

/-- An escaped string body parses back, stopping at the closing quote. -/
theorem pStr_escape (s rest : List Char) (fuel : Nat)
    (hf : (s.flatMap escapeChar).length < fuel) :
    pStr fuel (s.flatMap escapeChar ++ '"' :: rest) = some (s, rest) := by
  induction s generalizing fuel with
  | nil =>
    cases fuel with
    | zero => omega
    | succ f => simp [pStr]
  | cons c s ih =>
    cases fuel with
    | zero => omega
    | succ f =>
      rw [List.flatMap_cons, List.append_assoc, pStr_escapeChar]
      have hcl := escapeChar_length_pos c
      rw [List.flatMap_cons, List.length_append] at hf
      rw [ih f (by omega)]
      rfl

/-- Skipping whitespace does nothing when the head is not whitespace. -/
theorem skipJsonWs_cons_not {c : Char} (h : isJsonWs c = false) (cs : List Char) :
    skipJsonWs (c :: cs) = c :: cs := by
  simp [skipJsonWs, List.dropWhile_cons, h]

/-- Skipping whitespace passes over a single space. -/
theorem skipJsonWs_space (cs : List Char) : skipJsonWs (' ' :: cs) = skipJsonWs cs := by
  simp [skipJsonWs, List.dropWhile_cons, isJsonWs]

/-- `dropWhile` is idempotent. -/
theorem dropWhile_idem {p : Char → Bool} (l : List Char) :
    List.dropWhile p (List.dropWhile p l) = List.dropWhile p l := by
  induction l with
  | nil => rfl
  | cons x xs ih =>
    by_cases hx : p x = true
    · simp [List.dropWhile_cons, hx, ih]
    · simp [List.dropWhile_cons, hx]

/-- The value parser first discards whitespace, so pre-skipping changes nothing. -/
theorem pVal_skipWs (fuel : Nat) (cs : List Char) :
    pVal fuel (skipJsonWs cs) = pVal fuel cs := by
  cases fuel with
  | zero => rfl
  | succ f =>
    show pVal (f + 1) (skipJsonWs cs) = pVal (f + 1) cs
    rw [pVal, pVal]
    rw [show skipJsonWs (skipJsonWs cs) = skipJsonWs cs from dropWhile_idem cs]

/-- The member parser first discards whitespace, so pre-skipping changes nothing. -/
theorem pMembers_skipWs (fuel : Nat) (cs : List Char) :
    pMembers fuel (skipJsonWs cs) = pMembers fuel cs := by
  cases fuel with
  | zero => rfl
  | succ f =>
    show pMembers (f + 1) (skipJsonWs cs) = pMembers (f + 1) cs
    rw [pMembers, pMembers]
    rw [show skipJsonWs (skipJsonWs cs) = skipJsonWs cs from dropWhile_idem cs]

/-- A digit character is none of the characters that start another kind of
JSON token, and is not whitespace. -/
theorem digitChar_facts {c : Char} (h : isDigitChar c = true) :
    c ≠ 'n' ∧ c ≠ 't' ∧ c ≠ 'f' ∧ c ≠ '"' ∧ c ≠ '[' ∧ c ≠ '{' ∧ isJsonWs c = false := by
  refine ⟨?_, ?_, ?_, ?_, ?_, ?_, ?_⟩
  · intro hc; subst hc; exact absurd h (by decide)
  · intro hc; subst hc; exact absurd h (by decide)
  · intro hc; subst hc; exact absurd h (by decide)
  · intro hc; subst hc; exact absurd h (by decide)
  · intro hc; subst hc; exact absurd h (by decide)
  · intro hc; subst hc; exact absurd h (by decide)
  · simp only [isJsonWs, Bool.or_eq_false_iff, beq_eq_false_iff_ne]
    refine ⟨⟨⟨?_, ?_⟩, ?_⟩, ?_⟩ <;>
      { intro hc; subst hc; exact absurd h (by decide) }

/-- The rendering of an integer starts with a minus sign or a digit. -/
theorem intChars_head (i : Int) :
    ∃ c0 t0, intChars i = c0 :: t0 ∧ (c0 = '-' ∨ isDigitChar c0 = true) := by
  by_cases hi : i < 0
  · exact ⟨'-', natChars i.natAbs, by rw [intChars, if_pos hi], Or.inl rfl⟩
  · obtain ⟨d, ds, hds, hd, _⟩ := natChars_shape i.natAbs
    exact ⟨d, ds, by rw [intChars, if_neg hi, hds], Or.inr hd⟩

/-- A rendered scalar starts with a non-whitespace character. -/
theorem dumpScalar_head (v : Json) (hv : isScalar v = true) :
    ∃ c0 t0, dumpScalar v = c0 :: t0 ∧ isJsonWs c0 = false := by
  cases v with
  | null => exact ⟨'n', _, rfl, by decide⟩
  | bool b => cases b with
    | true => exact ⟨'t', _, rfl, by decide⟩
    | false => exact ⟨'f', _, rfl, by decide⟩
  | num i =>
    obtain ⟨c0, t0, hct, hc⟩ := intChars_head i
    refine ⟨c0, t0, by rw [dumpScalar, hct], ?_⟩
    rcases hc with rfl | hdig
    · decide
    · exact (digitChar_facts hdig).2.2.2.2.2.2
  | str s => exact ⟨'"', _, rfl, by decide⟩
  | arr l => exact absurd hv (by simp [isScalar])
  | obj l => exact absurd hv (by simp [isScalar])

/-- The value parser inverts scalar rendering when the remainder cannot
extend a number literal. -/
theorem pVal_dumpScalar (v : Json) (hv : isScalar v = true) (rest : List Char) (fuel : Nat)
    (hrest : ∀ c t, rest = c :: t → isDigitChar c = false)
    (hnum : numContinues rest = false) :
    pVal (fuel + 1) (dumpScalar v ++ rest) = some (v, rest) := by
  cases v with
  | null => simp [dumpScalar, pVal, skipJsonWs, isJsonWs]
  | bool b => cases b <;> simp [dumpScalar, pVal, skipJsonWs, isJsonWs]
  | str s =>
    rw [show dumpScalar (.str s) ++ rest =
      '"' :: (s.flatMap escapeChar ++ '"' :: rest) from by
        simp [dumpScalar, dumpStr]]
    rw [pVal]
    rw [skipJsonWs_cons_not (by decide)]
    simp only [reduceIte]
    rw [pStr_escape s rest _ (by simp [List.length_append]; omega)]
    rfl
  | num i =>
    obtain ⟨c0, t0, hct, hc⟩ := intChars_head i
    have hfacts : c0 ≠ 'n' ∧ c0 ≠ 't' ∧ c0 ≠ 'f' ∧ c0 ≠ '"' ∧ c0 ≠ '[' ∧ c0 ≠ '{' ∧
        isJsonWs c0 = false := by
      rcases hc with rfl | hdig
      · exact ⟨by decide, by decide, by decide, by decide, by decide, by decide, by decide⟩
      · exact digitChar_facts hdig
    obtain ⟨f1, f2, f3, f4, f5, f6, f7⟩ := hfacts
    rw [show dumpScalar (.num i) ++ rest = c0 :: (t0 ++ rest) from by
      rw [dumpScalar, hct, List.cons_append]]
    rw [pVal]
    rw [skipJsonWs_cons_not f7]
    simp only [if_neg f1, if_neg f2, if_neg f3, if_neg f4, if_neg f5, if_neg f6]
    rw [← List.cons_append, ← hct, pInt_intChars i rest hrest hnum]
    rfl
  | arr l => exact absurd hv (by simp [isScalar])
  | obj l => exact absurd hv (by simp [isScalar])

/-- A leading space can be dropped before parsing a value. -/
theorem pVal_cons_space (fuel : Nat) (cs : List Char) :
    pVal fuel (' ' :: cs) = pVal fuel cs := by
  rw [← pVal_skipWs fuel (' ' :: cs), skipJsonWs_space, pVal_skipWs]

/-- A leading space can be dropped before parsing members. -/
theorem pMembers_cons_space (fuel : Nat) (cs : List Char) :
    pMembers fuel (' ' :: cs) = pMembers fuel cs := by
  rw [← pMembers_skipWs fuel (' ' :: cs), skipJsonWs_space, pMembers_skipWs]

/-- The tail separator of members is `", "` followed by the remaining
members rendered as usual. -/
theorem dumpMoreMembers_cons (k2 : List Char) (v2 : Json) (ms : List (List Char × Json)) :
    dumpMoreMembers ((k2, v2) :: ms) = ',' :: ' ' :: dumpMembers ((k2, v2) :: ms) := by
  rw [dumpMoreMembers, dumpMembers]

/-- The member parser inverts member rendering: a nonempty member list of
scalar values, rendered with the default separators and closed by `}`,
parses back to exactly those members. -/
theorem pMembers_dump : ∀ (ms : List (List Char × Json)) (k : List Char) (v : Json)
    (rest : List Char) (fuel : Nat),
    (∀ kv ∈ (k, v) :: ms, isScalar kv.2 = true) → ms.length + 1 < fuel →
    pMembers fuel (dumpMembers ((k, v) :: ms) ++ '}' :: rest) = some ((k, v) :: ms, rest) := by
  intro ms
  induction ms with
  | nil =>
    intro k v rest fuel hsc hfuel
    match fuel, hfuel with
    | f + 2, _ =>
      have hshape : dumpMembers [(k, v)] ++ '}' :: rest =
          '"' :: (k.flatMap escapeChar ++ '"' ::
            (':' :: ' ' :: (dumpScalar v ++ '}' :: rest))) := by
        rw [dumpMembers, dumpStr, dumpMoreMembers]
        simp [List.append_assoc]
      rw [hshape, pMembers]
      rw [skipJsonWs_cons_not (by decide)]
      simp only
      rw [pStr_escape k _ _ (by simp [List.length_append]; omega)]
      simp only
      rw [skipJsonWs_cons_not (by decide)]
      simp only
      rw [pVal_cons_space]
      rw [pVal_dumpScalar v (hsc (k, v) (List.mem_cons_self _ _)) ('}' :: rest) f
        (by intro c t h; injection h with h1 h2; subst h1; decide) rfl]
      simp only
      rw [skipJsonWs_cons_not (by decide)]
      rfl
  | cons m2 ms ih =>
    intro k v rest fuel hsc hfuel
    match fuel, hfuel with
    | f + 1, hf1 =>
      obtain ⟨k2, v2⟩ := m2
      have hlen1 : ((k2, v2) :: ms).length = ms.length + 1 := List.length_cons _ _
      have hshape : dumpMembers ((k, v) :: (k2, v2) :: ms) ++ '}' :: rest =
          '"' :: (k.flatMap escapeChar ++ '"' ::
            (':' :: ' ' :: (dumpScalar v ++
              (',' :: ' ' :: (dumpMembers ((k2, v2) :: ms) ++ '}' :: rest))))) := by
        rw [dumpMembers, dumpStr, dumpMoreMembers_cons]
        simp [List.append_assoc]
      rw [hshape, pMembers]
      rw [skipJsonWs_cons_not (by decide)]
      simp only
      rw [pStr_escape k _ _ (by simp [List.length_append]; omega)]
      simp only
      rw [skipJsonWs_cons_not (by decide)]
      simp only
      cases f with
      | zero => omega
      | succ f2 =>
        rw [pVal_cons_space]
        rw [pVal_dumpScalar v (hsc (k, v) (List.mem_cons_self _ _))
          (',' :: ' ' :: (dumpMembers ((k2, v2) :: ms) ++ '}' :: rest)) f2
          (by intro c t h; injection h with h1 h2; subst h1; decide) rfl]
        simp only
        rw [skipJsonWs_cons_not (by decide)]
        simp only
        rw [pMembers_cons_space]
        rw [ih k2 v2 rest (f2 + 1)
          (fun kv hkv => hsc kv (List.mem_cons_of_mem _ hkv)) (by rw [hlen1] at hf1; omega)]
        rfl

/-- A rendered member list is at least as long as the list itself. -/
theorem dumpMembers_length (ms : List (List Char × Json)) :
    ms.length ≤ (dumpMembers ms).length := by
  induction ms with
  | nil => simp [dumpMembers]
  | cons m rest ih =>
    obtain ⟨k, v⟩ := m
    have hmore : (dumpMembers rest).length ≤ (dumpMoreMembers rest).length := by
      cases rest with
      | nil => simp [dumpMembers, dumpMoreMembers]
      | cons m2 r2 =>
        obtain ⟨k2, v2⟩ := m2
        rw [dumpMoreMembers_cons]
        simp only [List.length_cons]
        omega
    rw [dumpMembers]
    simp only [List.length_append, List.length_cons, dumpStr]
    simp only [List.length_cons] at ih ⊢
    omega

/-- The value parser inverts the rendering of a nonempty flat object. -/
theorem pVal_dumpObj (ms : List (List Char × Json)) (k : List Char) (v : Json)
    (rest : List Char) (fuel : Nat)
    (hsc : ∀ kv ∈ (k, v) :: ms, isScalar kv.2 = true) (hfuel : ms.length + 2 < fuel) :
    pVal fuel (dumpObj ((k, v) :: ms) ++ rest) = some (.obj ((k, v) :: ms), rest) := by
  have hcons : dumpMembers ((k, v) :: ms) ++ '}' :: rest =
      '"' :: (k.flatMap escapeChar ++ '"' ::
        (':' :: ' ' :: (dumpScalar v ++ (dumpMoreMembers ms ++ '}' :: rest)))) := by
    rw [dumpMembers, dumpStr]
    simp [List.append_assoc]
  match fuel, hfuel with
  | f + 1, hf1 =>
    have hmem : pMembers f ('"' :: (k.flatMap escapeChar ++ '"' ::
        (':' :: ' ' :: (dumpScalar v ++ (dumpMoreMembers ms ++ '}' :: rest))))) =
        some ((k, v) :: ms, rest) := by
      rw [← hcons]
      exact pMembers_dump ms k v rest f hsc (by omega)
    rw [show dumpObj ((k, v) :: ms) ++ rest =
        '{' :: (dumpMembers ((k, v) :: ms) ++ '}' :: rest) from by
      rw [dumpObj]
      simp [List.append_assoc]]
    rw [hcons, pVal]
    simp [skipJsonWs, isJsonWs, List.dropWhile_cons, hmem]

/-- `json.loads` of a rendered nonempty flat object of scalars recovers
exactly that object. -/
theorem loads_dumpObj (ms : List (List Char × Json)) (k : List Char) (v : Json)
    (hsc : ∀ kv ∈ (k, v) :: ms, isScalar kv.2 = true) :
    loads (dumpObj ((k, v) :: ms)) = some (.obj ((k, v) :: ms)) := by
  have hlen : ms.length + 2 < 2 * (dumpObj ((k, v) :: ms)).length + 2 := by
    have h1 := dumpMembers_length ((k, v) :: ms)
    rw [dumpObj]
    simp only [List.length_cons, List.length_append] at h1 ⊢
    omega
  rw [loads]
  rw [show dumpObj ((k, v) :: ms) = dumpObj ((k, v) :: ms) ++ [] from
    (List.append_nil _).symm]
  rw [pVal_dumpObj ms k v [] _ hsc (by simpa using hlen)]
  rfl

/-- Every value in a transcript record is a scalar. -/
theorem recordMembers_scalar (r : RecordInput) (ts : List Char) :
    ∀ kv ∈ recordMembers r ts, isScalar kv.2 = true := by
  intro kv hkv
  rw [recordMembers] at hkv
  simp only [List.mem_cons, List.not_mem_nil, or_false] at hkv
  rcases hkv with rfl | rfl | rfl | rfl | rfl | rfl | rfl | rfl
  · rfl
  · rfl
  · rfl
  · rfl
  · rfl
  · cases r.filename <;> rfl
  · rfl
  · rfl

/-- The full record codec round trip: `json.loads` of the line written by
`save_transcription` yields exactly the record object. -/
theorem loads_dumpRecord (r : RecordInput) (ts : List Char) :
    loads (dumpRecord r ts) = some (recordJson r ts) := by
  rw [dumpRecord, recordJson, recordMembers]
  exact loads_dumpObj _ _ _ (by rw [← recordMembers]; exact recordMembers_scalar r ts)

/-- Hex digit characters are never a newline. -/
theorem hexChar_ne_nl (d : Nat) (h : d < 16) : (hexChar d == '\n') = false := by
  interval_cases d <;> decide

/-- Escaping never emits a raw newline (newlines themselves are escaped). -/
theorem escapeChar_no_nl (c : Char) : ∀ x ∈ escapeChar c, (x == '\n') = false := by
  intro x hx
  rw [escapeChar] at hx
  split_ifs at hx with h1 h2 h3 h4 h5 h6 h7 h8
  · fin_cases hx <;> decide
  · fin_cases hx <;> decide
  · fin_cases hx <;> decide
  · fin_cases hx <;> decide
  · fin_cases hx <;> decide
  · fin_cases hx <;> decide
  · fin_cases hx <;> decide
  · simp only [List.mem_cons, List.not_mem_nil, or_false] at hx
    rcases hx with rfl | rfl | rfl | rfl | rfl | rfl
    · decide
    · decide
    · decide
    · decide
    · exact hexChar_ne_nl _ (by omega)
    · exact hexChar_ne_nl _ (by omega)
  · rw [List.mem_singleton] at hx
    subst hx
    have : x.toNat ≠ 10 := h5
    simp only [beq_eq_false_iff_ne]
    intro hc
    exact this (by rw [hc]; rfl)

/-- A rendered string literal contains no raw newline. -/
theorem dumpStr_no_nl (str : List Char) : ∀ x ∈ dumpStr str, (x == '\n') = false := by
  intro x hx
  rw [dumpStr] at hx
  rcases List.mem_cons.mp hx with rfl | hx
  · decide
  rcases List.mem_append.mp hx with hx | hx
  · obtain ⟨c, _, hc⟩ := List.mem_flatMap.mp hx
    exact escapeChar_no_nl c x hc
  · rw [List.mem_singleton] at hx; subst hx; decide

/-- A rendered integer contains no raw newline. -/
theorem intChars_no_nl (i : Int) : ∀ x ∈ intChars i, (x == '\n') = false := by
  intro x hx
  rw [intChars] at hx
  have hdig : ∀ y, isDigitChar y = true → (y == '\n') = false := by
    intro y hy
    simp only [beq_eq_false_iff_ne]
    intro hc
    subst hc
    exact absurd hy (by decide)
  split_ifs at hx with hi
  · rcases List.mem_cons.mp hx with rfl | hx
    · decide
    · exact hdig x (natChars_digits _ x hx)
  · exact hdig x (natChars_digits _ x hx)

/-- A rendered scalar contains no raw newline. -/
theorem dumpScalar_no_nl (v : Json) : ∀ x ∈ dumpScalar v, (x == '\n') = false := by
  intro x hx
  cases v with
  | null => rw [dumpScalar] at hx; fin_cases hx <;> decide
  | bool b =>
    cases b with
    | true => rw [dumpScalar] at hx; fin_cases hx <;> decide
    | false => rw [dumpScalar] at hx; fin_cases hx <;> decide
  | num i => exact intChars_no_nl i x hx
  | str t => exact dumpStr_no_nl t x hx
  | arr l => rw [dumpScalar] at hx; fin_cases hx <;> decide
  | obj l => rw [dumpScalar] at hx; fin_cases hx <;> decide

/-- Rendered members contain no raw newline. -/
theorem dumpMembers_no_nl (ms : List (List Char × Json)) :
    (∀ x ∈ dumpMembers ms, (x == '\n') = false) ∧
    (∀ x ∈ dumpMoreMembers ms, (x == '\n') = false) := by
  induction ms with
  | nil =>
    constructor
    · intro x hx
      rw [dumpMembers] at hx
      cases hx
    · intro x hx
      rw [dumpMoreMembers] at hx
      cases hx
  | cons m rest ih =>
    obtain ⟨k, v⟩ := m
    have hone : ∀ x ∈ dumpStr k ++ ':' :: ' ' :: (dumpScalar v ++ dumpMoreMembers rest),
        (x == '\n') = false := by
      intro x hx
      rcases List.mem_append.mp hx with hx | hx
      · exact dumpStr_no_nl k x hx
      rcases List.mem_cons.mp hx with rfl | hx
      · decide
      rcases List.mem_cons.mp hx with rfl | hx
      · decide
      rcases List.mem_append.mp hx with hx | hx
      · exact dumpScalar_no_nl v x hx
      · exact ih.2 x hx
    constructor
    · intro x hx
      rw [dumpMembers] at hx
      exact hone x hx
    · intro x hx
      rw [dumpMoreMembers] at hx
      rcases List.mem_cons.mp hx with rfl | hx
      · decide
      rcases List.mem_cons.mp hx with rfl | hx
      · decide
      exact hone x hx

/-- A serialized record line contains no raw newline: it occupies exactly
one line of the JSONL file. -/
theorem dumpRecord_no_nl (r : RecordInput) (ts : List Char) :
    ∀ x ∈ dumpRecord r ts, (x == '\n') = false := by
  intro x hx
  rw [dumpRecord, dumpObj] at hx
  rcases List.mem_cons.mp hx with rfl | hx
  · decide
  rcases List.mem_append.mp hx with hx | hx
  · exact (dumpMembers_no_nl _).1 x hx
  · rw [List.mem_singleton] at hx; subst hx; decide

/-- `strip` leaves a serialized object line unchanged. -/
theorem pyStrip_dumpObj (ms : List (List Char × Json)) :
    pyStrip (dumpObj ms) = dumpObj ms := by
  rw [dumpObj]
  exact pyStrip_sandwich '{' (dumpMembers ms) '}' (by decide) (by decide)

/-- C8 (frame property of `save_transcription`): appending leaves the
previous content untouched as a prefix and adds exactly one
newline-terminated JSON line after it — a line with no interior newline
that parses back to the record object — so existing bytes are never
truncated, rewritten or mutated. -/
theorem save_transcription_frame (prev : List Char) (r : RecordInput) (ts : List Char) :
    save_transcription prev r ts = prev ++ (dumpRecord r ts ++ ['\n']) ∧
    (∀ c ∈ dumpRecord r ts, c ≠ '\n') ∧
    loads (dumpRecord r ts) = some (recordJson r ts) := by
  refine ⟨rfl, ?_, loads_dumpRecord r ts⟩
  intro c hc
  have := dumpRecord_no_nl r ts c hc
  simpa using this

/-- C3 (round trip): saving one record on a fresh log and listing with no
filter returns exactly one record whose fields are the caller's values
plus the internally assigned timestamp and `character_count`, the latter
equal to the length of the transcription text. -/
theorem save_then_list_roundtrip (r : RecordInput) (ts : List Char) :
    get_transcriptions true (save_transcription [] r ts) none none =
      .ok [Json.obj [(kTimestamp, .str ts),
        (kUserId, .num r.user_id),
        (kMessageId, .num r.message_id),
        (kFileId, .str r.file_id),
        (kFileType, .str r.file_type),
        (kFilename, match r.filename with | none => Json.null | some f => Json.str f),
        (kTranscription, .str r.transcription),
        (kCharacterCount, .num (r.transcription.length : Int))]] := by
  have hlines : fileLines (save_transcription [] r ts) = [dumpRecord r ts, []] := by
    rw [save_transcription, List.nil_append,
      show dumpRecord r ts ++ ['\n'] = dumpRecord r ts ++ '\n' :: [] from rfl,
      fileLines_cons_line _ _ (dumpRecord_no_nl r ts), fileLines_nil]
  have hstrip : pyStrip (dumpRecord r ts) = dumpRecord r ts := pyStrip_dumpObj _
  have hne : (dumpRecord r ts).isEmpty = false := by rw [dumpRecord, dumpObj]; rfl
  rw [get_transcriptions, if_pos rfl, hlines]
  rw [readLines]
  simp only [hstrip, hne, Bool.false_eq_true, if_false, loads_dumpRecord r ts]
  rw [readLines]
  simp only [pyStrip_nil, List.isEmpty_nil, if_true]
  rw [readLines]
  rfl

/-- `dict.get` of the user id on a freshly built record. -/
theorem objGetD_record (r : RecordInput) (ts : List Char) :
    objGetD (recordMembers r ts) kUserId = .num r.user_id := by
  rw [recordMembers, objGetD]
  simp only [List.foldl_cons, List.foldl_nil]
  rw [if_neg (show ¬((kCharacterCount == kUserId) = true) by decide),
    if_neg (show ¬((kTranscription == kUserId) = true) by decide),
    if_neg (show ¬((kFilename == kUserId) = true) by decide),
    if_neg (show ¬((kFileType == kUserId) = true) by decide),
    if_neg (show ¬((kFileId == kUserId) = true) by decide),
    if_neg (show ¬((kMessageId == kUserId) = true) by decide),
    if_pos (show (kUserId == kUserId) = true by decide)]

/-- Folding appends over a prior content concatenates the rendered lines. -/
theorem logContent_eq (rs : List (RecordInput × List Char)) :
    ∀ pre, rs.foldl (fun c p => save_transcription c p.1 p.2) pre =
      pre ++ (rs.map (fun p => dumpRecord p.1 p.2 ++ ['\n'])).flatten := by
  induction rs with
  | nil =>
    intro pre
    simp
  | cons p rs ih =>
    intro pre
    rw [List.foldl_cons, ih, List.map_cons, List.flatten_cons, save_transcription]
    simp [List.append_assoc]

/-- The lines of a log built by appends: one line per record, plus the
empty segment after the final newline. -/
theorem fileLines_logContent (rs : List (RecordInput × List Char)) :
    fileLines (logContent rs) = rs.map (fun p => dumpRecord p.1 p.2) ++ [[]] := by
  rw [logContent, logContent_eq rs [], List.nil_append]
  induction rs with
  | nil =>
    simpa using fileLines_nil
  | cons p rs ih =>
    rw [List.map_cons, List.flatten_cons]
    rw [show (dumpRecord p.1 p.2 ++ ['\n']) ++
        (rs.map (fun p => dumpRecord p.1 p.2 ++ ['\n'])).flatten =
        dumpRecord p.1 p.2 ++ '\n' ::
          (rs.map (fun p => dumpRecord p.1 p.2 ++ ['\n'])).flatten from by
      simp [List.append_assoc]]
    rw [fileLines_cons_line _ _ (dumpRecord_no_nl p.1 p.2), ih]
    rfl

/-- The line loop over the rendered lines of appended records collects
exactly the user's records, in order, through the limited collector. -/
theorem readLines_records (uid : Int) (lim : Option Int) :
    ∀ (rs : List (RecordInput × List Char)) (acc : List Json),
    readLines (some uid) lim (rs.map (fun p => dumpRecord p.1 p.2) ++ [[]]) acc =
      .ok (collectLimited lim acc
        ((rs.filter (fun p => p.1.user_id == uid)).map (fun p => recordJson p.1 p.2))) := by
  intro rs
  induction rs with
  | nil =>
    intro acc
    rw [List.map_nil, List.nil_append, readLines]
    simp only [pyStrip_nil, List.isEmpty_nil, if_true]
    rw [readLines, List.filter_nil, List.map_nil, collectLimited]
  | cons p rs ih =>
    intro acc
    rw [List.map_cons, List.cons_append, readLines]
    have hstrip : pyStrip (dumpRecord p.1 p.2) = dumpRecord p.1 p.2 := pyStrip_dumpObj _
    have hne : (dumpRecord p.1 p.2).isEmpty = false := by rw [dumpRecord, dumpObj]; rfl
    simp only [hstrip, hne, Bool.false_eq_true, if_false, loads_dumpRecord]
    rw [show recordJson p.1 p.2 = Json.obj (recordMembers p.1 p.2) from rfl]
    simp only [objGetD_record]
    rw [show pyEqInt (Json.num p.1.user_id) uid = (p.1.user_id == uid) from rfl]
    by_cases hm : (p.1.user_id == uid) = true
    · rw [if_neg (show ¬((!(p.1.user_id == uid)) = true) by simp [hm])]
      rw [List.filter_cons_of_pos (by simpa using hm)]
      rw [List.map_cons]
      rw [show Json.obj (recordMembers p.1 p.2) = recordJson p.1 p.2 from rfl]
      rw [collectLimited]
      by_cases hl : limTriggered lim (acc ++ [recordJson p.1 p.2]).length = true
      · rw [if_pos hl, if_pos hl]
      · rw [if_neg hl, if_neg hl, ih]
    · rw [if_pos (show (!(p.1.user_id == uid)) = true by simp [hm])]
      rw [List.filter_cons_of_neg (by simpa using hm)]
      exact ih acc

/-- The break condition of a nonzero limit, spelled out. -/
theorem limTriggered_some_iff (k : Int) (n : Nat) :
    limTriggered (some k) n = true ↔ k ≠ 0 ∧ k ≤ (n : Int) := by
  simp [limTriggered]

/-- Starting from an empty accumulator, the limited collector computes
exactly the `applyLimit` semantics. -/
theorem collectLimited_applyLimit (lim : Option Int) (l : List Json) :
    collectLimited lim [] l = applyLimit lim l := by
  have hnone : ∀ (k : Option Int), (∀ n, limTriggered k n = false) →
      ∀ (m acc : List Json), collectLimited k acc m = acc ++ m := by
    intro k hk m
    induction m with
    | nil =>
      intro acc
      rw [collectLimited]
      simp
    | cons j js ihm =>
      intro acc
      rw [collectLimited, hk, if_neg (by simp), ihm]
      simp
  match lim with
  | none =>
    rw [applyLimit]
    exact (by simpa using hnone none (fun n => rfl) l [] : collectLimited none [] l = l)
  | some k =>
    by_cases hk : k = 0
    · subst hk
      rw [applyLimit, if_pos rfl]
      exact (by simpa using hnone (some 0) (fun n => by simp [limTriggered]) l [] :
        collectLimited (some 0) [] l = l)
    · have h : ∀ (m acc : List Json),
          collectLimited (some k) acc m =
            acc ++ m.take (if k ≤ (acc.length : Int) then 1 else (k - acc.length).toNat) := by
        intro m
        induction m with
        | nil =>
          intro acc
          rw [collectLimited]
          simp
        | cons j js ihm =>
          intro acc
          rw [collectLimited]
          have hlen : (acc ++ [j]).length = acc.length + 1 := by simp
          by_cases ht : limTriggered (some k) (acc ++ [j]).length = true
          · rw [if_pos ht]
            have hk2 : k ≤ (acc.length : Int) + 1 := by
              have := (limTriggered_some_iff k (acc ++ [j]).length).mp ht
              rw [hlen] at this
              exact_mod_cast this.2
            by_cases hle : k ≤ (acc.length : Int)
            · rw [if_pos hle]
              simp
            · rw [if_neg hle]
              have h1 : (k - acc.length).toNat = 1 := by omega
              rw [h1]
              simp
          · have hk2 : ¬ k ≤ (acc.length : Int) + 1 := by
              intro hc
              exact ht ((limTriggered_some_iff k (acc ++ [j]).length).mpr
                ⟨hk, by rw [hlen]; exact_mod_cast hc⟩)
            rw [if_neg ht, ihm, hlen]
            rw [if_neg (by omega : ¬ k ≤ (acc.length : Int)),
              if_neg (by push_cast; omega : ¬ k ≤ ((acc.length + 1 : Nat) : Int))]
            have h2 : (k - acc.length).toNat = (k - (acc.length + 1)).toNat + 1 := by
              omega
            rw [h2, List.take_succ_cons]
            simp [List.append_assoc]
      rw [h l [], applyLimit, if_neg hk]
      by_cases hneg : k ≤ (0 : Int)
      · rw [if_pos (by simpa using hneg), if_pos hneg]
        simp
      · rw [if_neg (by simpa using hneg), if_neg hneg]
        simp

/-- C4 (amended): over any log built by appends, listing with a user
filter returns exactly that user's records in append order; a positive
limit truncates to at most that many (stopping early), while a limit of
`0` (falsy in the loop guard) imposes no limit and a negative limit stops
after the first match; a missing file yields the empty list, not an
error. -/
theorem get_transcriptions_filter_amended (rs : List (RecordInput × List Char))
    (uid : Int) (lim : Option Int) :
    (get_transcriptions true (logContent rs) (some uid) lim =
      .ok (applyLimit lim ((rs.filter (fun p => p.1.user_id == uid)).map
        (fun p => recordJson p.1 p.2)))) ∧
    (∀ (c : List Char) (u : Option Int) (l : Option Int),
      get_transcriptions false c u l = .ok []) := by
  constructor
  · rw [get_transcriptions, if_pos rfl, fileLines_logContent, readLines_records,
      collectLimited_applyLimit]
  · intro c u l
    rw [get_transcriptions]
    simp

/-- C4 (counterexample to the claim as stated): with `limit = 0` the loop
guard `if limit and ...` is falsy, so a single matching record is
returned — more than the "at most zero" the claim requires. -/
theorem get_transcriptions_limit_zero_counterexample :
    get_transcriptions true (save_transcription [] sampleRecord sampleTs)
        (some 42) (some 0) = .ok [recordJson sampleRecord sampleTs] ∧
    (.ok [recordJson sampleRecord sampleTs] :
        Except StorageErr (List Json)) ≠ .ok [] := by
  constructor
  · set_option maxRecDepth 10000 in rfl
  · intro h
    injection h with h2
    simp at h2

/-- C6: a line that fails to parse as JSON between two well-formed lines
is skipped with only a warning: an unfiltered listing returns exactly the
two valid records and never surfaces a `StorageError` for it. -/
theorem get_transcriptions_skips_malformed (l1 lb l2 : List Char) (j1 j2 : Json)
    (h1nl : ∀ c ∈ l1, (c == '\n') = false) (hbnl : ∀ c ∈ lb, (c == '\n') = false)
    (h2nl : ∀ c ∈ l2, (c == '\n') = false)
    (h1 : loads (pyStrip l1) = some j1) (h2 : loads (pyStrip l2) = some j2)
    (hb : loads (pyStrip lb) = none) :
    get_transcriptions true (l1 ++ '\n' :: (lb ++ '\n' :: l2)) none none =
      .ok [j1, j2] := by
  have hlines : fileLines (l1 ++ '\n' :: (lb ++ '\n' :: l2)) = [l1, lb, l2] := by
    rw [fileLines_cons_line _ _ h1nl, fileLines_cons_line _ _ hbnl,
      fileLines_no_nl _ h2nl]
  have hne1 : (pyStrip l1).isEmpty = false := by
    cases hc : pyStrip l1 with
    | nil =>
      rw [hc, show loads [] = none from rfl] at h1
      cases h1
    | cons a l => rfl
  have hne2 : (pyStrip l2).isEmpty = false := by
    cases hc : pyStrip l2 with
    | nil =>
      rw [hc, show loads [] = none from rfl] at h2
      cases h2
    | cons a l => rfl
  rw [get_transcriptions, if_pos rfl, hlines]
  rw [readLines]
  simp only [hne1, Bool.false_eq_true, if_false, h1]
  rw [readLines]
  by_cases hbe : (pyStrip lb).isEmpty = true
  · simp only [hbe, if_true]
    rw [readLines]
    simp only [hne2, Bool.false_eq_true, if_false, h2]
    rw [readLines]
    rfl
  · have hbe2 : (pyStrip lb).isEmpty = false := by
      revert hbe
      cases (pyStrip lb).isEmpty <;> simp
    simp only [hbe2, Bool.false_eq_true, if_false, hb]
    rw [readLines]
    simp only [hne2, Bool.false_eq_true, if_false, h2]
    rw [readLines]
    rfl

/-- Witness for C6: one malformed line between two valid JSON lines. -/
theorem get_transcriptions_skips_malformed_witness :
    get_transcriptions true
        (['{', '"', 'u', '"', ':', ' ', '1', '}'] ++ '\n' ::
          (['n', 'o', 't', ' ', 'j', 's', 'o', 'n'] ++ '\n' ::
            ['{', '"', 'a', '"', ':', ' ', '2', '}'])) none none =
      .ok [.obj [(['u'], .num 1)], .obj [(['a'], .num 2)]] :=
  get_transcriptions_skips_malformed _ _ _ _ _
    (by decide) (by decide) (by decide) rfl rfl rfl

/-- The stats scan raises as soon as any line parses to a non-object
(`record.get` on a non-dict raises, and only JSON decode errors are
caught per line). -/
theorem statsScan_error (lines : List (List Char)) :
    ∀ (total : Nat) (seen : List Json),
    (∃ l ∈ lines, ∃ v, loads (pyStrip l) = some v ∧ v.isObj = false) →
    statsScan lines total seen = .error .storageError := by
  induction lines with
  | nil =>
    rintro total seen ⟨l, hl, _⟩
    cases hl
  | cons l ls ih =>
    rintro total seen ⟨w, hw, v, hv, hvo⟩
    rw [statsScan]
    by_cases he : (pyStrip l).isEmpty = true
    · simp only [he, if_true]
      apply ih
      rcases List.mem_cons.mp hw with rfl | hw2
      · exfalso
        have hnil : pyStrip w = [] := List.isEmpty_iff.mp he
        rw [hnil, show loads [] = none from rfl] at hv
        cases hv
      · exact ⟨w, hw2, v, hv, hvo⟩
    · have he2 : (pyStrip l).isEmpty = false := by
        revert he
        cases (pyStrip l).isEmpty <;> simp
      simp only [he2, Bool.false_eq_true, if_false]
      cases hload : loads (pyStrip l) with
      | none =>
        apply ih
        rcases List.mem_cons.mp hw with rfl | hw2
        · rw [hload] at hv
          cases hv
        · exact ⟨w, hw2, v, hv, hvo⟩
      | some record =>
        cases record with
        | obj ms =>
          cases hs : setAdd seen (objGetD ms kUserId) with
          | error e =>
            cases e
            simp only [hs]
          | ok seen2 =>
            simp only [hs]
            apply ih
            rcases List.mem_cons.mp hw with rfl | hw2
            · rw [hload] at hv
              injection hv with hv2
              rw [← hv2] at hvo
              simp [Json.isObj] at hvo
            · exact ⟨w, hw2, v, hv, hvo⟩
        | null => rfl
        | bool b => rfl
        | num n => rfl
        | str t => rfl
        | arr items => rfl

/-- C10: only lines that fail JSON parsing are skipped during reads — a
line holding valid JSON that is not an object (such as a bare number)
makes `get_storage_stats` raise a `StorageError`, because the per-line
handler catches only decode failures and the attribute access on the
non-dict escapes to the operation-level handler. -/
theorem get_storage_stats_nonobject_line (content : List Char)
    (h : ∃ l ∈ fileLines content, ∃ v, loads (pyStrip l) = some v ∧ v.isObj = false) :
    get_storage_stats true content = .error .storageError := by
  rw [get_storage_stats, if_pos rfl, statsScan_error (fileLines content) 0 [] h]

/-- Witness for C10: a file whose only line is the bare number `5`. -/
theorem get_storage_stats_nonobject_line_witness :
    get_storage_stats true ['5'] = .error .storageError := by
  apply get_storage_stats_nonobject_line
  refine ⟨['5'], ?_, Json.num 5, rfl, rfl⟩
  rw [fileLines_no_nl _ (by decide)]
  exact List.mem_singleton.mpr rfl

end TelegramApi

